import Mathlib

set_option linter.unusedVariables false

/-!
Shallow embedding of the tsetlin Rust crate (src/automaton.rs, src/clause.rs,
src/machine.rs) and proofs about it.

Modelling conventions:
* Rust `i32` / `u32` / `usize` are modelled as `ℤ` / `ℕ`; no value in this
  library approaches the 32-bit boundary (the automaton depth defaults to 100
  and vote sums are bounded by `num_clauses`), so wrap-around is not modelled.
* Rust `f64` parameters (specificity, threshold, random draws) are modelled
  as `ℚ`.
* Rust panics (failed `assert!` / `assert_eq!` and slice index out of bounds)
  are modelled with `Except Panic`.
* The random number generator (`rand::rngs::StdRng`, an external crate) is
  modelled as an explicit stream of rationals consumed sequentially.
-/

namespace Tsetlin

/-- The panics the library can raise: the two `assert` failures in
`machine.rs` and slice-indexing out of bounds in `clause.rs`. -/
inductive Panic where
  | shapeMismatch
  | oddClauses
  | indexOutOfBounds
deriving DecidableEq, Repr

/-- Action enum from src/automaton.rs. -/
inductive Action where
  | Include
  | Exclude
deriving DecidableEq, Repr

/-- TsetlinAutomaton struct from src/automaton.rs: `state : i32`,
`num_states : u32`. -/
structure TsetlinAutomaton where
  state : ℤ
  num_states : ℕ
deriving DecidableEq, Repr

/-- Modelled from the spec: the seedable stochastic source (rand `StdRng` in
the Rust code, an external crate outside this repository) exposing uniform
draws in `[0,1)`; modelled as a stream of rationals with a read position. -/
structure Rng where
  stream : ℕ → ℚ
  pos : ℕ

/-- Draw the next uniform value from the stochastic source
(`rng.gen::<f64>()`). -/
def Rng.next (r : Rng) : ℚ × Rng :=
  (r.stream r.pos, { r with pos := r.pos + 1 })

/-- Rust `TsetlinAutomaton::new`: start in the deepest Exclude state. -/
def TsetlinAutomaton.new (num_states : ℕ) : TsetlinAutomaton :=
  { state := -(num_states : ℤ), num_states := num_states }

/-- Rust `TsetlinAutomaton::action`: sign of `state` decides the action. -/
def TsetlinAutomaton.action (a : TsetlinAutomaton) : Action :=
  if a.state > 0 then Action.Include else Action.Exclude

/-- Rust `TsetlinAutomaton::reward`: move one step deeper into the current
action, saturating at `±num_states`. -/
def TsetlinAutomaton.reward (a : TsetlinAutomaton) : TsetlinAutomaton :=
  if a.state > 0 then
    { a with state := min (a.state + 1) (a.num_states : ℤ) }
  else
    { a with state := max (a.state - 1) (-(a.num_states : ℤ)) }

/-- Rust `TsetlinAutomaton::penalize`: move one step toward the opposite
action, unconditionally. -/
def TsetlinAutomaton.penalize (a : TsetlinAutomaton) : TsetlinAutomaton :=
  if a.state > 0 then
    { a with state := a.state - 1 }
  else
    { a with state := a.state + 1 }

/-- Rust `TsetlinAutomaton::update_with_probability`: draw one uniform value;
if it is below `probability`, apply `reward` or `penalize`. -/
def TsetlinAutomaton.update_with_probability (a : TsetlinAutomaton)
    (reward : Bool) (probability : ℚ) (rng : Rng) : TsetlinAutomaton × Rng :=
  let d := rng.next
  if d.1 < probability then
    (if reward then a.reward else a.penalize, d.2)
  else
    (a, d.2)

/-- One abstract call against a single automaton: `reward()`, `penalize()`,
or `update_with_probability(reward, probability, _)` where `draw` is the
uniform value the stochastic source produces for that call. -/
inductive AutOp where
  | rewardOp
  | penalizeOp
  | probOp (reward : Bool) (probability : ℚ) (draw : ℚ)

/-- Apply one abstract call to an automaton (the probabilistic call is
routed through `update_with_probability` with a one-draw stream). -/
def applyAutOp (a : TsetlinAutomaton) : AutOp → TsetlinAutomaton
  | AutOp.rewardOp => a.reward
  | AutOp.penalizeOp => a.penalize
  | AutOp.probOp r p q => (a.update_with_probability r p ⟨fun _ => q, 0⟩).1

/-- Apply a sequence of abstract calls. -/
def applyAutOps (a : TsetlinAutomaton) (ops : List AutOp) : TsetlinAutomaton :=
  ops.foldl applyAutOp a

theorem update_with_probability_fst (a : TsetlinAutomaton) (r : Bool) (p : ℚ) (rng : Rng) :
    (a.update_with_probability r p rng).1 =
      if rng.stream rng.pos < p then (if r then a.reward else a.penalize) else a := by
  simp only [TsetlinAutomaton.update_with_probability, Rng.next]
  split <;> rfl

theorem penalize_state (a : TsetlinAutomaton) :
    (a.penalize).state = if a.state > 0 then a.state - 1 else a.state + 1 := by
  unfold TsetlinAutomaton.penalize
  split <;> simp

theorem penalize_num_states (a : TsetlinAutomaton) :
    (a.penalize).num_states = a.num_states := by
  unfold TsetlinAutomaton.penalize
  split <;> simp

theorem reward_num_states (a : TsetlinAutomaton) :
    (a.reward).num_states = a.num_states := by
  unfold TsetlinAutomaton.reward
  split <;> simp

theorem penalize_iter_from_new (d : ℕ) :
    ∀ k : ℕ, k ≤ d + 1 →
      TsetlinAutomaton.penalize^[k] (TsetlinAutomaton.new d) =
        { state := -(d : ℤ) + k, num_states := d } := by
  intro k
  induction k with
  | zero =>
    intro _
    simp [TsetlinAutomaton.new]
  | succ n ih =>
    intro hle
    have hn : n ≤ d + 1 := Nat.le_of_succ_le hle
    have hnd : n ≤ d := Nat.lt_succ_iff.mp hle
    rw [Function.iterate_succ_apply', ih hn]
    have hnp : ¬ ((-(d : ℤ) + n) > 0) := by
      have : (n : ℤ) ≤ (d : ℤ) := by exact_mod_cast hnd
      omega
    unfold TsetlinAutomaton.penalize
    simp only [hnp, if_false]
    congr 1
    push_cast
    ring

/-- C1: from `state = -depth_limit`, `penalize()` applied `depth_limit`
times leaves the action at Exclude (the state has just reached 0), and one
more application — `depth_limit + 1` consecutive calls in total — flips the
action to Include (state 1): the action boundary sits between state 0
(Exclude) and state 1 (Include). -/
theorem penalize_flips_after_depth_plus_one (d : ℕ) (hd : 1 ≤ d) :
    (TsetlinAutomaton.penalize^[d] (TsetlinAutomaton.new d)).action = Action.Exclude ∧
    (TsetlinAutomaton.penalize^[d + 1] (TsetlinAutomaton.new d)).action = Action.Include := by
  constructor
  · rw [penalize_iter_from_new d d (Nat.le_succ d)]
    unfold TsetlinAutomaton.action
    simp
  · rw [penalize_iter_from_new d (d + 1) (le_refl _)]
    unfold TsetlinAutomaton.action
    have h1 : -(d : ℤ) + ((d + 1 : ℕ) : ℤ) = 1 := by push_cast; ring
    simp only [h1]
    norm_num

/-- Witness for C1 at `depth_limit = 2`. -/
theorem penalize_flips_after_depth_plus_one_witness :
    1 ≤ 2 ∧
    ((TsetlinAutomaton.penalize^[2] (TsetlinAutomaton.new 2)).action = Action.Exclude ∧
     (TsetlinAutomaton.penalize^[2 + 1] (TsetlinAutomaton.new 2)).action = Action.Include) :=
  ⟨by decide, penalize_flips_after_depth_plus_one 2 (by decide)⟩

theorem applyAutOp_num_states (a : TsetlinAutomaton) (op : AutOp) :
    (applyAutOp a op).num_states = a.num_states := by
  cases op with
  | rewardOp => exact reward_num_states a
  | penalizeOp => exact penalize_num_states a
  | probOp r p q =>
    show ((a.update_with_probability r p ⟨fun _ => q, 0⟩).1).num_states = a.num_states
    rw [update_with_probability_fst]
    split
    · cases r
      · exact penalize_num_states a
      · exact reward_num_states a
    · rfl

theorem applyAutOp_state_bounds (d : ℕ) (hd : 1 ≤ d) (a : TsetlinAutomaton)
    (hns : a.num_states = d) (hlo : -(d : ℤ) ≤ a.state) (hhi : a.state ≤ (d : ℤ)) (op : AutOp) :
    -(d : ℤ) ≤ (applyAutOp a op).state ∧ (applyAutOp a op).state ≤ (d : ℤ) := by
  have hd1 : (1 : ℤ) ≤ (d : ℤ) := by exact_mod_cast hd
  have hrw : -(d : ℤ) ≤ (a.reward).state ∧ (a.reward).state ≤ (d : ℤ) := by
    unfold TsetlinAutomaton.reward
    split <;> rename_i h <;> simp [hns] <;> omega
  have hpe : -(d : ℤ) ≤ (a.penalize).state ∧ (a.penalize).state ≤ (d : ℤ) := by
    unfold TsetlinAutomaton.penalize
    split <;> rename_i h <;> simp <;> omega
  cases op with
  | rewardOp => exact hrw
  | penalizeOp => exact hpe
  | probOp r p q =>
    have he : applyAutOp a (AutOp.probOp r p q) =
        if (⟨fun _ => q, 0⟩ : Rng).stream (⟨fun _ => q, 0⟩ : Rng).pos < p then
          (if r then a.reward else a.penalize) else a :=
      update_with_probability_fst a r p _
    rw [he]
    split
    · cases r
      · simpa using hpe
      · simpa using hrw
    · exact ⟨hlo, hhi⟩

theorem applyAutOps_state_bounds (d : ℕ) (hd : 1 ≤ d) (ops : List AutOp) :
    ∀ a : TsetlinAutomaton, a.num_states = d →
      -(d : ℤ) ≤ a.state → a.state ≤ (d : ℤ) →
      -(d : ℤ) ≤ (applyAutOps a ops).state ∧ (applyAutOps a ops).state ≤ (d : ℤ) := by
  induction ops with
  | nil => intro a _ hlo hhi; exact ⟨hlo, hhi⟩
  | cons op rest ih =>
    intro a hns hlo hhi
    have hb := applyAutOp_state_bounds d hd a hns hlo hhi op
    have hns2 : (applyAutOp a op).num_states = d := by
      rw [applyAutOp_num_states]; exact hns
    exact ih (applyAutOp a op) hns2 hb.1 hb.2

/-- C5 counterexample: state 0 is reachable — with `depth_limit = 1` a
single `penalize()` call moves the freshly constructed automaton from
state `-1` to state `0`, contradicting "state 0 is never reached". -/
theorem automaton_state_zero_reachable :
    (applyAutOps (TsetlinAutomaton.new 1) [AutOp.penalizeOp]).state = 0 := by
  decide

/-- C5 amended: for every `depth_limit ≥ 1` the state of an automaton
constructed with `TsetlinAutomaton.new depth_limit` stays in the closed
interval `[-depth_limit, depth_limit]` under every sequence of `reward()`,
`penalize()` and `update_with_probability()` calls; state 0, however, is
reachable (`penalize` crosses through it). -/
theorem automaton_state_stays_bounded (d : ℕ) (hd : 1 ≤ d) (ops : List AutOp) :
    -(d : ℤ) ≤ (applyAutOps (TsetlinAutomaton.new d) ops).state ∧
      (applyAutOps (TsetlinAutomaton.new d) ops).state ≤ (d : ℤ) := by
  have h0 : (TsetlinAutomaton.new d).num_states = d := rfl
  have hlo : -(d : ℤ) ≤ (TsetlinAutomaton.new d).state := le_refl _
  have hhi : (TsetlinAutomaton.new d).state ≤ (d : ℤ) := by
    unfold TsetlinAutomaton.new
    simp only
    omega
  exact applyAutOps_state_bounds d hd ops (TsetlinAutomaton.new d) h0 hlo hhi

/-- Witness for the amended C5 at `depth_limit = 1` with a mixed call
sequence. -/
theorem automaton_state_stays_bounded_witness :
    1 ≤ 1 ∧
    (-(1 : ℤ) ≤ (applyAutOps (TsetlinAutomaton.new 1)
        [AutOp.penalizeOp, AutOp.penalizeOp, AutOp.rewardOp,
         AutOp.probOp false (1/2) 0]).state ∧
     (applyAutOps (TsetlinAutomaton.new 1)
        [AutOp.penalizeOp, AutOp.penalizeOp, AutOp.rewardOp,
         AutOp.probOp false (1/2) 0]).state ≤ (1 : ℤ)) :=
  ⟨by decide,
   automaton_state_stays_bounded 1 (by decide)
     [AutOp.penalizeOp, AutOp.penalizeOp, AutOp.rewardOp,
      AutOp.probOp false (1/2) 0]⟩

/-- Clause struct from src/clause.rs: one automaton per feature for the
positive literals and one per feature for the negated literals. -/
structure Clause where
  positive_automata : List TsetlinAutomaton
  negative_automata : List TsetlinAutomaton
deriving DecidableEq, Repr

/-- Rust `Clause::new`: all automata start from `TsetlinAutomaton::new num_states`
(deepest Exclude). -/
def Clause.new (num_features : ℕ) (num_states : ℕ) : Clause :=
  { positive_automata := List.replicate num_features (TsetlinAutomaton.new num_states),
    negative_automata := List.replicate num_features (TsetlinAutomaton.new num_states) }

/-- Loop body of `Clause::evaluate`: `for i in 0..input.len()`, indexing
`positive_automata[i]` and `negative_automata[i]` (out-of-bounds indexing
is the `indexOutOfBounds` panic), returning `false` at the first violated
literal. -/
def Clause.evaluateGo (c : Clause) : List Bool → ℕ → Except Panic Bool
  | [], _ => Except.ok true
  | b :: rest, i =>
    match c.positive_automata[i]? with
    | none => Except.error Panic.indexOutOfBounds
    | some pa =>
      if pa.action = Action.Include ∧ b = false then Except.ok false
      else
        match c.negative_automata[i]? with
        | none => Except.error Panic.indexOutOfBounds
        | some na =>
          if na.action = Action.Include ∧ b = true then Except.ok false
          else c.evaluateGo rest (i + 1)

/-- Rust `Clause::evaluate`. -/
def Clause.evaluate (c : Clause) (input : List Bool) : Except Panic Bool :=
  c.evaluateGo input 0

/-- Loop of the Type I, clause-fired branch of `Clause::update`
(`target = true`, `clause_output = true`): deterministically reward every
Included literal matching the input and penalize every Included literal
contradicting it. -/
def Clause.typeIFireGo (c : Clause) : List Bool → ℕ → Except Panic Clause
  | [], _ => Except.ok c
  | b :: rest, i =>
    match c.positive_automata[i]? with
    | none => Except.error Panic.indexOutOfBounds
    | some pa =>
      let c1 : Clause :=
        if pa.action = Action.Include then
          { c with positive_automata :=
              c.positive_automata.set i (if b then pa.reward else pa.penalize) }
        else c
      match c1.negative_automata[i]? with
      | none => Except.error Panic.indexOutOfBounds
      | some na =>
        let c2 : Clause :=
          if na.action = Action.Include then
            { c1 with negative_automata :=
                c1.negative_automata.set i (if b = false then na.reward else na.penalize) }
          else c1
        c2.typeIFireGo rest (i + 1)

/-- Loop of the Type I, clause-not-fired branch of `Clause::update`
(`target = true`, `clause_output = false`): every Excluded literal whose
condition is satisfied by the input gets
`update_with_probability(false, specificity / (specificity + 1), rng)`. -/
def Clause.typeINotFireGo (c : Clause) (s : ℚ) :
    List Bool → ℕ → Rng → Except Panic (Clause × Rng)
  | [], _, rng => Except.ok (c, rng)
  | b :: rest, i, rng =>
    match c.positive_automata[i]? with
    | none => Except.error Panic.indexOutOfBounds
    | some pa =>
      let st1 : Clause × Rng :=
        if pa.action = Action.Exclude ∧ b = true then
          let res := pa.update_with_probability false (s / (s + 1)) rng
          ({ c with positive_automata := c.positive_automata.set i res.1 }, res.2)
        else (c, rng)
      match st1.1.negative_automata[i]? with
      | none => Except.error Panic.indexOutOfBounds
      | some na =>
        let st2 : Clause × Rng :=
          if na.action = Action.Exclude ∧ b = false then
            let res := na.update_with_probability false (s / (s + 1)) st1.2
            ({ st1.1 with negative_automata := st1.1.negative_automata.set i res.1 }, res.2)
          else st1
        st2.1.typeINotFireGo s rest (i + 1) st2.2

/-- Loop of the Type II branch of `Clause::update` (`target = false`,
`clause_output = true`): every Included literal gets
`update_with_probability(false, 1 / specificity, rng)`. -/
def Clause.typeIIGo (c : Clause) (s : ℚ) :
    List Bool → ℕ → Rng → Except Panic (Clause × Rng)
  | [], _, rng => Except.ok (c, rng)
  | b :: rest, i, rng =>
    match c.positive_automata[i]? with
    | none => Except.error Panic.indexOutOfBounds
    | some pa =>
      let st1 : Clause × Rng :=
        if pa.action = Action.Include then
          let res := pa.update_with_probability false (1 / s) rng
          ({ c with positive_automata := c.positive_automata.set i res.1 }, res.2)
        else (c, rng)
      match st1.1.negative_automata[i]? with
      | none => Except.error Panic.indexOutOfBounds
      | some na =>
        let st2 : Clause × Rng :=
          if na.action = Action.Include then
            let res := na.update_with_probability false (1 / s) st1.2
            ({ st1.1 with negative_automata := st1.1.negative_automata.set i res.1 }, res.2)
          else st1
        st2.1.typeIIGo s rest (i + 1) st2.2

/-- Rust `Clause::update`: dispatch on `target` (Type I / Type II feedback) and
`clause_output`; the Type II branch with `clause_output = false` does
nothing. -/
def Clause.update (c : Clause) (input : List Bool) (target clause_output : Bool)
    (specificity : ℚ) (rng : Rng) : Except Panic (Clause × Rng) :=
  if target then
    if clause_output then
      match c.typeIFireGo input 0 with
      | Except.error e => Except.error e
      | Except.ok c2 => Except.ok (c2, rng)
    else c.typeINotFireGo specificity input 0 rng
  else
    if clause_output then c.typeIIGo specificity input 0 rng
    else Except.ok (c, rng)

/-- Literal `k` of a clause is satisfied by input bit `b` unless an
Included positive automaton sees `b = false` or an Included negative
automaton sees `b = true` (the conjunct of §3 of the spec). -/
def Clause.litSat (c : Clause) (k : ℕ) (b : Bool) : Bool :=
  decide ((c.positive_automata.getD k (TsetlinAutomaton.new 0)).action = Action.Include →
    b = true) &&
  decide ((c.negative_automata.getD k (TsetlinAutomaton.new 0)).action = Action.Include →
    b = false)

/-- The conjunction of §3 of the spec restricted to the first
`input.length` literals. -/
def Clause.prefixConj (c : Clause) (input : List Bool) : Bool :=
  (List.range input.length).all fun i => c.litSat i (input.getD i false)

theorem evaluateGo_all_exclude_oob (c : Clause)
    (hpos : ∀ a ∈ c.positive_automata, a.action = Action.Exclude)
    (hneg : ∀ a ∈ c.negative_automata, a.action = Action.Exclude) :
    ∀ (input : List Bool) (i : ℕ),
      i ≤ min c.positive_automata.length c.negative_automata.length →
      min c.positive_automata.length c.negative_automata.length < i + input.length →
      c.evaluateGo input i = Except.error Panic.indexOutOfBounds := by
  intro input
  induction input with
  | nil =>
    intro i hle hlt
    simp at hlt
    omega
  | cons b rest ih =>
    intro i hle hlt
    cases hp : c.positive_automata[i]? with
    | none => simp [Clause.evaluateGo, hp]
    | some pa =>
      have hpa : pa.action = Action.Exclude := hpos pa (List.getElem?_mem hp)
      have hc1 : ¬ (pa.action = Action.Include ∧ b = false) := by
        intro hcon
        rw [hpa] at hcon
        exact absurd hcon.1 (by simp)
      cases hn : c.negative_automata[i]? with
      | none => simp [Clause.evaluateGo, hp, hn, hc1]
      | some na =>
        have hna : na.action = Action.Exclude := hneg na (List.getElem?_mem hn)
        have hc2 : ¬ (na.action = Action.Include ∧ b = true) := by
          intro hcon
          rw [hna] at hcon
          exact absurd hcon.1 (by simp)
        have hip : i < c.positive_automata.length :=
          (List.getElem?_eq_some_iff.mp hp).1
        have hin : i < c.negative_automata.length :=
          (List.getElem?_eq_some_iff.mp hn).1
        have hrec : c.evaluateGo rest (i + 1) = Except.error Panic.indexOutOfBounds := by
          apply ih (i + 1)
          · omega
          · simp at hlt ⊢
            omega
        simp [Clause.evaluateGo, hp, hn, hc1, hc2, hrec]

theorem evaluateGo_in_bounds (c : Clause) :
    ∀ (input : List Bool) (i : ℕ),
      i + input.length ≤ c.positive_automata.length →
      i + input.length ≤ c.negative_automata.length →
      c.evaluateGo input i =
        Except.ok ((List.range input.length).all fun j =>
          c.litSat (i + j) (input.getD j false)) := by
  intro input
  induction input with
  | nil =>
    intro i _ _
    simp [Clause.evaluateGo]
  | cons b rest ih =>
    intro i hp hn
    have hip : i < c.positive_automata.length := by
      simp at hp
      omega
    have hin : i < c.negative_automata.length := by
      simp at hn
      omega
    have hgp : c.positive_automata[i]? = some c.positive_automata[i] :=
      List.getElem?_eq_getElem hip
    have hgn : c.negative_automata[i]? = some c.negative_automata[i] :=
      List.getElem?_eq_getElem hin
    have hdp : c.positive_automata.getD i (TsetlinAutomaton.new 0) =
        c.positive_automata[i] := by
      rw [List.getD_eq_getElem?_getD, hgp]
      rfl
    have hdn : c.negative_automata.getD i (TsetlinAutomaton.new 0) =
        c.negative_automata[i] := by
      rw [List.getD_eq_getElem?_getD, hgn]
      rfl
    have hrange : (List.range (rest.length + 1)).all
        (fun j => c.litSat (i + j) ((b :: rest).getD j false)) =
        (c.litSat i b &&
          (List.range rest.length).all
            (fun j => c.litSat (i + 1 + j) (rest.getD j false))) := by
      rw [List.range_succ_eq_map, List.all_cons, List.all_map]
      congr 1
      congr 1
      funext j
      show c.litSat (i + (j + 1)) (rest.getD j false) =
        c.litSat (i + 1 + j) (rest.getD j false)
      have harith : i + (j + 1) = i + 1 + j := by omega
      rw [harith]
    have hgoal : c.evaluateGo (b :: rest) i =
        if c.positive_automata[i].action = Action.Include ∧ b = false then
          Except.ok false
        else if c.negative_automata[i].action = Action.Include ∧ b = true then
          Except.ok false
        else c.evaluateGo rest (i + 1) := by
      simp only [Clause.evaluateGo, hgp, hgn]
    rw [hgoal]
    by_cases hc1 : c.positive_automata[i].action = Action.Include ∧ b = false
    · rw [if_pos hc1]
      have hls : c.litSat i b = false := by
        unfold Clause.litSat
        rw [hdp]
        simp [hc1.1, hc1.2]
      simp only [List.length_cons, hrange, hls, Bool.false_and]
    · rw [if_neg hc1]
      by_cases hc2 : c.negative_automata[i].action = Action.Include ∧ b = true
      · rw [if_pos hc2]
        have hls : c.litSat i b = false := by
          unfold Clause.litSat
          rw [hdn]
          simp [hc2.1, hc2.2]
        simp only [List.length_cons, hrange, hls, Bool.and_false, Bool.false_and]
      · have hsat : c.litSat i b = true := by
          unfold Clause.litSat
          rw [hdp, hdn]
          cases b with
          | false =>
            have h1 : ¬ c.positive_automata[i].action = Action.Include :=
              fun h => hc1 ⟨h, rfl⟩
            simp [h1]
          | true =>
            have h2 : ¬ c.negative_automata[i].action = Action.Include :=
              fun h => hc2 ⟨h, rfl⟩
            simp [h2]
        rw [if_neg hc2, ih (i + 1) (by simp at hp ⊢; omega) (by simp at hn ⊢; omega)]
        simp only [List.length_cons, hrange, hsat, Bool.true_and]

/-- C10 counterexample: an included positive literal can short-circuit
`Clause::evaluate` to `false` before the loop reaches the out-of-bounds
index, so an input strictly longer than `num_features` does not always
panic: this clause has `num_features = 1` (its positive automaton was
driven to Include by two `penalize()` calls) and evaluates the length-2
input `[false, false]` to `Ok false` with no out-of-bounds access. -/
theorem clause_evaluate_long_input_no_panic :
    (Clause.mk [((TsetlinAutomaton.new 1).penalize).penalize] [TsetlinAutomaton.new 1]
      ).positive_automata.length = 1 ∧
    (Clause.mk [((TsetlinAutomaton.new 1).penalize).penalize] [TsetlinAutomaton.new 1]
      ).evaluate [false, false] = Except.ok false :=
  ⟨rfl, rfl⟩

/-- C10 amended: `Clause.evaluate` iterates over the length of the input
slice, not over the clause's own feature count. For an input strictly
longer than the automata sequences the indexing goes out of bounds
whenever no included literal short-circuits first — in particular for
every all-Exclude clause — and for an input no longer than the automata
sequences the call is total and returns exactly the §3 conjunction
restricted to the first `input.len()` literals (so it agrees with the §3
conjunction precisely under the precondition
`input.len() == num_features`, which is enforced at the Machine boundary
but not at the Clause boundary). -/
theorem clause_evaluate_totality (c : Clause) (input : List Bool) :
    ((∀ a ∈ c.positive_automata, a.action = Action.Exclude) →
     (∀ a ∈ c.negative_automata, a.action = Action.Exclude) →
     min c.positive_automata.length c.negative_automata.length < input.length →
     c.evaluate input = Except.error Panic.indexOutOfBounds) ∧
    (input.length ≤ c.positive_automata.length →
     input.length ≤ c.negative_automata.length →
     c.evaluate input = Except.ok (c.prefixConj input)) := by
  constructor
  · intro hpos hneg hlt
    exact evaluateGo_all_exclude_oob c hpos hneg input 0 (Nat.zero_le _) (by omega)
  · intro hp hn
    unfold Clause.evaluate Clause.prefixConj
    rw [evaluateGo_in_bounds c input 0 (by omega) (by omega)]
    simp only [Nat.zero_add]

/-- Witness for the amended C10: a fresh 1-feature clause panics on a
length-2 input and is total (with the §3 prefix conjunction as value) on a
length-1 input. -/
theorem clause_evaluate_totality_witness :
    ((Clause.new 1 5).evaluate [true, true] = Except.error Panic.indexOutOfBounds) ∧
    ((Clause.new 1 5).evaluate [true] = Except.ok ((Clause.new 1 5).prefixConj [true])) :=
  ⟨(clause_evaluate_totality (Clause.new 1 5) [true, true]).1
      (by decide) (by decide) (by decide),
   (clause_evaluate_totality (Clause.new 1 5) [true]).2 (by decide) (by decide)⟩

/-- ClauseBank struct from src/clause.rs. -/
structure ClauseBank where
  clauses : List Clause
  polarities : List Bool
deriving DecidableEq, Repr

/-- Rust `ClauseBank::new`: `num_clauses` fresh clauses; polarity `i < num_clauses / 2`
(first half positive, second half negative). -/
def ClauseBank.new (num_features num_clauses : ℕ) (num_states : ℕ) : ClauseBank :=
  { clauses := (List.range num_clauses).map (fun _ => Clause.new num_features num_states),
    polarities := (List.range num_clauses).map (fun i => decide (i < num_clauses / 2)) }

/-- Loop of `ClauseBank::vote`: accumulate `+1` for a firing positive
clause, `-1` for a firing negative clause. -/
def ClauseBank.voteGo (input : List Bool) : List (Clause × Bool) → ℤ → Except Panic ℤ
  | [], acc => Except.ok acc
  | (clause, polarity) :: rest, acc =>
    match clause.evaluate input with
    | Except.error e => Except.error e
    | Except.ok b =>
      ClauseBank.voteGo input rest
        (if b then (if polarity then acc + 1 else acc - 1) else acc)

/-- Rust `ClauseBank::vote`. -/
def ClauseBank.vote (bank : ClauseBank) (input : List Bool) : Except Panic ℤ :=
  ClauseBank.voteGo input (bank.clauses.zip bank.polarities) 0

/-- Rust `threshold as i32`: an f64-to-i32 cast truncates toward zero (the
thresholds used stay far inside the i32 range, so saturation is not
modelled). -/
def ratTruncToInt (q : ℚ) : ℤ := if 0 ≤ q then ⌊q⌋ else ⌈q⌉

/-- Loop of `ClauseBank::update`: per clause, compute its own fresh
`evaluate(input)` as `clause_output`, gate on the single pre-computed
`vote_sum`, and on a gated clause call `Clause::update` with the
polarity-adjusted target, threading the rng. -/
def ClauseBank.updateGo (input : List Bool) (target : Bool) (tInt : ℤ) (vote_sum : ℤ)
    (specificity : ℚ) : List (Clause × Bool) → Rng → Except Panic (List Clause × Rng)
  | [], rng => Except.ok ([], rng)
  | (clause, polarity) :: rest, rng =>
    match clause.evaluate input with
    | Except.error e => Except.error e
    | Except.ok clause_output =>
      let should_update : Bool :=
        if target then decide (vote_sum < tInt) else decide (-tInt < vote_sum)
      let step : Except Panic (Clause × Rng) :=
        if should_update then
          let clause_target := if polarity then target else !target
          clause.update input clause_target clause_output specificity rng
        else Except.ok (clause, rng)
      match step with
      | Except.error e => Except.error e
      | Except.ok (c2, rng2) =>
        match ClauseBank.updateGo input target tInt vote_sum specificity rest rng2 with
        | Except.error e => Except.error e
        | Except.ok (cs, rng3) => Except.ok (c2 :: cs, rng3)

/-- Rust `ClauseBank::update`: compute `vote_sum = vote(input)` once, then run
the per-clause loop (`iter_mut().zip(..)` visits the zipped prefix and
leaves any clauses beyond it untouched). -/
def ClauseBank.update (bank : ClauseBank) (input : List Bool) (target : Bool)
    (threshold specificity : ℚ) (rng : Rng) : Except Panic (ClauseBank × Rng) :=
  match bank.vote input with
  | Except.error e => Except.error e
  | Except.ok vote_sum =>
    match ClauseBank.updateGo input target (ratTruncToInt threshold) vote_sum specificity
        (bank.clauses.zip bank.polarities) rng with
    | Except.error e => Except.error e
    | Except.ok (cs, rng2) =>
      Except.ok
        ({ clauses := cs ++ bank.clauses.drop (bank.clauses.zip bank.polarities).length,
           polarities := bank.polarities }, rng2)

/-- Specification-side loop for C2, following §4.3 of the spec: every
clause receives feedback, with the clause-level target equal to `target`
for positive polarity and its negation otherwise, each clause using its
own freshly computed `evaluate(input)` as `clause_output`, the rng
threaded left to right. -/
def ClauseBank.updateAllSpec (input : List Bool) (target : Bool) (specificity : ℚ) :
    List (Clause × Bool) → Rng → Except Panic (List Clause × Rng)
  | [], rng => Except.ok ([], rng)
  | (clause, polarity) :: rest, rng =>
    match clause.evaluate input with
    | Except.error e => Except.error e
    | Except.ok clause_output =>
      match clause.update input (if polarity then target else !target) clause_output
          specificity rng with
      | Except.error e => Except.error e
      | Except.ok (c2, rng2) =>
        match ClauseBank.updateAllSpec input target specificity rest rng2 with
        | Except.error e => Except.error e
        | Except.ok (cs, rng3) => Except.ok (c2 :: cs, rng3)

theorem voteGo_evaluate_ok (input : List Bool) :
    ∀ (lst : List (Clause × Bool)) (acc v : ℤ),
      ClauseBank.voteGo input lst acc = Except.ok v →
      ∀ cp ∈ lst, ∃ b, cp.1.evaluate input = Except.ok b := by
  intro lst
  induction lst with
  | nil =>
    intro acc v _ cp hcp
    exact absurd hcp (List.not_mem_nil cp)
  | cons hd rest ih =>
    intro acc v hok cp hcp
    obtain ⟨clause, polarity⟩ := hd
    cases he : clause.evaluate input with
    | error e =>
      rw [ClauseBank.voteGo, he] at hok
      exact absurd hok (by simp)
    | ok b =>
      rw [ClauseBank.voteGo, he] at hok
      rcases List.mem_cons.mp hcp with h | h
      · subst h
        exact ⟨b, he⟩
      · exact ih _ v hok cp h

theorem updateGo_gate_false (input : List Bool) (target : Bool) (tInt vs : ℤ)
    (s : ℚ)
    (hg : (if target then decide (vs < tInt) else decide (-tInt < vs)) = false) :
    ∀ (lst : List (Clause × Bool)) (rng : Rng),
      (∀ cp ∈ lst, ∃ b, cp.1.evaluate input = Except.ok b) →
      ClauseBank.updateGo input target tInt vs s lst rng =
        Except.ok (lst.map Prod.fst, rng) := by
  intro lst
  induction lst with
  | nil =>
    intro rng _
    rfl
  | cons hd rest ih =>
    intro rng hev
    obtain ⟨clause, polarity⟩ := hd
    obtain ⟨b, he⟩ := hev (clause, polarity) (List.mem_cons_self _ _)
    rw [ClauseBank.updateGo, he]
    simp only [hg, Bool.false_eq_true, if_false]
    rw [ih rng (fun cp hcp => hev cp (List.mem_cons_of_mem _ hcp))]
    rfl

theorem updateGo_gate_true (input : List Bool) (target : Bool) (tInt vs : ℤ)
    (s : ℚ)
    (hg : (if target then decide (vs < tInt) else decide (-tInt < vs)) = true) :
    ∀ (lst : List (Clause × Bool)) (rng : Rng),
      ClauseBank.updateGo input target tInt vs s lst rng =
        ClauseBank.updateAllSpec input target s lst rng := by
  intro lst
  induction lst with
  | nil =>
    intro rng
    rfl
  | cons hd rest ih =>
    intro rng
    obtain ⟨clause, polarity⟩ := hd
    cases he : clause.evaluate input with
    | error e => simp [ClauseBank.updateGo, ClauseBank.updateAllSpec, he]
    | ok out =>
      cases hu : clause.update input (if polarity then target else !target) out s rng with
      | error e => simp [ClauseBank.updateGo, ClauseBank.updateAllSpec, he, hg, hu]
      | ok pr =>
        obtain ⟨c2, rng2⟩ := pr
        simp [ClauseBank.updateGo, ClauseBank.updateAllSpec, he, hg, hu, ih rng2]

theorem zip_map_fst_append_drop {α β : Type} :
    ∀ (l1 : List α) (l2 : List β),
      (l1.zip l2).map Prod.fst ++ l1.drop (l1.zip l2).length = l1 := by
  intro l1
  induction l1 with
  | nil =>
    intro l2
    simp
  | cons a t ih =>
    intro l2
    cases l2 with
    | nil => simp
    | cons b t2 =>
      simp only [List.zip_cons_cons, List.map_cons, List.length_cons,
        List.cons_append, List.drop_succ_cons]
      rw [ih t2]

/-- C2: `ClauseBank::update` computes `vote_sum = vote(input)` exactly once
and uses that single value to gate every clause: when the gate (with
`target = true`: `vote_sum < threshold as i32`; with `target = false`:
`vote_sum > -(threshold as i32)`) is closed, the bank and the rng are
returned untouched (no clause modified, no randomness consumed); when it
is open, every zipped clause is updated with clause-level target `target`
for positive polarity and `!target` otherwise, using its own freshly
computed `evaluate(input)` as `clause_output`. -/
theorem clause_bank_update_single_vote_gate (bank : ClauseBank) (input : List Bool)
    (target : Bool) (threshold specificity : ℚ) (rng : Rng) (vs : ℤ)
    (hv : bank.vote input = Except.ok vs) :
    bank.update input target threshold specificity rng =
      if (if target then decide (vs < ratTruncToInt threshold)
          else decide (-(ratTruncToInt threshold) < vs)) = true then
        match ClauseBank.updateAllSpec input target specificity
            (bank.clauses.zip bank.polarities) rng with
        | Except.error e => Except.error e
        | Except.ok (cs, rng2) =>
          Except.ok
            ({ clauses := cs ++ bank.clauses.drop (bank.clauses.zip bank.polarities).length,
               polarities := bank.polarities }, rng2)
      else Except.ok (bank, rng) := by
  by_cases hg : (if target then decide (vs < ratTruncToInt threshold)
      else decide (-(ratTruncToInt threshold) < vs)) = true
  · rw [if_pos hg]
    simp only [ClauseBank.update, hv,
      updateGo_gate_true input target (ratTruncToInt threshold) vs specificity hg]
  · rw [if_neg hg]
    have hg2 : (if target then decide (vs < ratTruncToInt threshold)
        else decide (-(ratTruncToInt threshold) < vs)) = false := by
      cases hb : (if target then decide (vs < ratTruncToInt threshold)
          else decide (-(ratTruncToInt threshold) < vs)) with
      | false => rfl
      | true => exact absurd hb hg
    have hall := voteGo_evaluate_ok input (bank.clauses.zip bank.polarities) 0 vs hv
    have hfalse := updateGo_gate_false input target (ratTruncToInt threshold) vs
      specificity hg2 (bank.clauses.zip bank.polarities) rng hall
    simp only [ClauseBank.update, hv, hfalse, zip_map_fst_append_drop]

/-- Witness for C2 on a concrete fresh bank (gate closed: vote 0 is not
below the truncated threshold 0). -/
theorem clause_bank_update_single_vote_gate_witness :
    (ClauseBank.new 1 2 1).vote [true] = Except.ok 0 ∧
    ((ClauseBank.new 1 2 1).update [true] true (1/2) 2 ⟨fun _ => 0, 0⟩ =
      if (if true then decide ((0 : ℤ) < ratTruncToInt (1/2))
          else decide (-(ratTruncToInt (1/2)) < (0 : ℤ))) = true then
        match ClauseBank.updateAllSpec [true] true 2
            (((ClauseBank.new 1 2 1)).clauses.zip ((ClauseBank.new 1 2 1)).polarities)
            ⟨fun _ => 0, 0⟩ with
        | Except.error e => Except.error e
        | Except.ok (cs, rng2) =>
          Except.ok
            ({ clauses := cs ++ ((ClauseBank.new 1 2 1)).clauses.drop
                 (((ClauseBank.new 1 2 1)).clauses.zip ((ClauseBank.new 1 2 1)).polarities).length,
               polarities := ((ClauseBank.new 1 2 1)).polarities }, rng2)
      else Except.ok (ClauseBank.new 1 2 1, ⟨fun _ => 0, 0⟩)) :=
  ⟨by rfl,
   clause_bank_update_single_vote_gate (ClauseBank.new 1 2 1) [true] true (1/2) 2
     ⟨fun _ => 0, 0⟩ 0 (by rfl)⟩

theorem fresh_automaton_action_exclude (ns : ℕ) :
    (TsetlinAutomaton.new ns).action = Action.Exclude := by
  unfold TsetlinAutomaton.action TsetlinAutomaton.new
  have h : ¬ ((-(ns : ℤ)) > 0) := by omega
  simp [h]

theorem fresh_clause_evaluate_true (nf ns : ℕ) (input : List Bool)
    (hlen : input.length ≤ nf) :
    (Clause.new nf ns).evaluate input = Except.ok true := by
  have hp : input.length ≤ (Clause.new nf ns).positive_automata.length := by
    simp [Clause.new]
    omega
  have hn : input.length ≤ (Clause.new nf ns).negative_automata.length := by
    simp [Clause.new]
    omega
  rw [Clause.evaluate, evaluateGo_in_bounds _ input 0 (by omega) (by omega)]
  congr 1
  rw [List.all_eq_true]
  intro j hj
  have hjlen : j < input.length := List.mem_range.mp hj
  have hjnf : j < nf := lt_of_lt_of_le hjlen hlen
  unfold Clause.litSat
  have hgp : (Clause.new nf ns).positive_automata.getD (0 + j) (TsetlinAutomaton.new 0) =
      TsetlinAutomaton.new ns := by
    simp [Clause.new, List.getD_eq_getElem?_getD, List.getElem?_replicate_of_lt hjnf]
  have hgn : (Clause.new nf ns).negative_automata.getD (0 + j) (TsetlinAutomaton.new 0) =
      TsetlinAutomaton.new ns := by
    simp [Clause.new, List.getD_eq_getElem?_getD, List.getElem?_replicate_of_lt hjnf]
  rw [hgp, hgn, fresh_automaton_action_exclude ns]
  simp

theorem signed_sum_all_lt (k : ℕ) :
    ∀ l : List ℕ, (∀ x ∈ l, x < k) →
      (l.map (fun i => if i < k then (1 : ℤ) else -1)).sum = l.length := by
  intro l
  induction l with
  | nil => intro _; simp
  | cons a t ih =>
    intro hall
    have ha : a < k := hall a (List.mem_cons_self _ _)
    simp only [List.map_cons, List.sum_cons, if_pos ha,
      ih (fun x hx => hall x (List.mem_cons_of_mem _ hx)), List.length_cons]
    push_cast
    ring

theorem signed_sum_all_ge (k : ℕ) :
    ∀ l : List ℕ, (∀ x ∈ l, ¬ x < k) →
      (l.map (fun i => if i < k then (1 : ℤ) else -1)).sum = -(l.length : ℤ) := by
  intro l
  induction l with
  | nil => intro _; simp
  | cons a t ih =>
    intro hall
    have ha : ¬ a < k := hall a (List.mem_cons_self _ _)
    simp only [List.map_cons, List.sum_cons, if_neg ha,
      ih (fun x hx => hall x (List.mem_cons_of_mem _ hx)), List.length_cons]
    push_cast
    ring

theorem voteGo_const_clause (input : List Bool) (c : Clause)
    (hc : c.evaluate input = Except.ok true) :
    ∀ (pols : List Bool) (acc : ℤ),
      ClauseBank.voteGo input (pols.map (fun p => (c, p))) acc =
        Except.ok (acc + (pols.map (fun p => if p then (1 : ℤ) else -1)).sum) := by
  intro pols
  induction pols with
  | nil =>
    intro acc
    simp [ClauseBank.voteGo]
  | cons p rest ih =>
    intro acc
    cases p with
    | true =>
      simp only [List.map_cons, List.sum_cons]
      rw [show ClauseBank.voteGo input ((c, true) :: rest.map (fun p => (c, p))) acc =
          ClauseBank.voteGo input (rest.map (fun p => (c, p))) (acc + 1) by
        simp [ClauseBank.voteGo, hc]]
      rw [ih (acc + 1)]
      congr 1
      simp
      ring
    | false =>
      simp only [List.map_cons, List.sum_cons]
      rw [show ClauseBank.voteGo input ((c, false) :: rest.map (fun p => (c, p))) acc =
          ClauseBank.voteGo input (rest.map (fun p => (c, p))) (acc - 1) by
        simp [ClauseBank.voteGo, hc]]
      rw [ih (acc - 1)]
      congr 1
      simp
      ring

/-- C9 counterexample: "for every input" fails — on a fresh all-Exclude
bank with `num_features = 3`, an input of length 4 drives the clause loop
past the automata bounds, so `vote` panics (index out of bounds) instead
of returning 0. -/
theorem fresh_bank_vote_long_input_panics :
    (ClauseBank.new 3 4 100).vote [true, false, true, true] =
      Except.error Panic.indexOutOfBounds := by
  rfl

/-- C9 amended: a freshly constructed `ClauseBank` (every automaton in
Exclude, even `num_clauses`, first half polarity positive and second half
negative) returns `vote(input) = Ok 0` for every input that does not
exceed `num_features` in length (each all-Exclude clause evaluates to true
as a vacuous conjunction, and the `+1`/`-1` contributions cancel); inputs
strictly longer than `num_features` instead panic (see the C10
development). -/
theorem fresh_bank_vote_zero (nf nc ns : ℕ) (input : List Bool)
    (heven : nc % 2 = 0) (hlen : input.length ≤ nf) :
    (ClauseBank.new nf nc ns).vote input = Except.ok 0 := by
  have hc : (Clause.new nf ns).evaluate input = Except.ok true :=
    fresh_clause_evaluate_true nf ns input hlen
  unfold ClauseBank.vote ClauseBank.new
  simp only
  rw [List.zip_map']
  have hmm : (List.range nc).map (fun i => (Clause.new nf ns, decide (i < nc / 2))) =
      ((List.range nc).map (fun i => decide (i < nc / 2))).map
        (fun p => (Clause.new nf ns, p)) := by
    rw [List.map_map]
    rfl
  rw [hmm, voteGo_const_clause input _ hc]
  have hsum : (((List.range nc).map (fun i => decide (i < nc / 2))).map
      (fun p => if p then (1 : ℤ) else -1)).sum = 0 := by
    rw [List.map_map]
    have hfun : ((fun p => if p then (1 : ℤ) else -1) ∘ fun i => decide (i < nc / 2)) =
        fun i => if i < nc / 2 then (1 : ℤ) else -1 := by
      funext i
      simp [Function.comp]
    rw [hfun]
    rw [show List.range nc = List.range (nc / 2) ++ (List.range (nc / 2)).map
        (fun i => nc / 2 + i) from by rw [← List.range_add]; congr 1; omega]
    rw [List.map_append, List.sum_append]
    have h1 : ((List.range (nc / 2)).map
        (fun i => if i < nc / 2 then (1 : ℤ) else -1)).sum = ((List.range (nc / 2)).length : ℤ) :=
      signed_sum_all_lt (nc / 2) (List.range (nc / 2))
        (fun x hx => List.mem_range.mp hx)
    have h2 : (((List.range (nc / 2)).map (fun i => nc / 2 + i)).map
        (fun i => if i < nc / 2 then (1 : ℤ) else -1)).sum =
        -(((List.range (nc / 2)).map (fun i => nc / 2 + i)).length : ℤ) := by
      apply signed_sum_all_ge (nc / 2)
      intro x hx
      obtain ⟨i, hi, hxi⟩ := List.mem_map.mp hx
      omega
    rw [h1, h2]
    simp
  rw [hsum]
  simp

/-- Witness for the amended C9 at the spec's concrete case:
`num_clauses = 4`, `num_features = 3`, input `[true, false, true]`. -/
theorem fresh_bank_vote_zero_witness :
    4 % 2 = 0 ∧ ([true, false, true] : List Bool).length ≤ 3 ∧
    (ClauseBank.new 3 4 100).vote [true, false, true] = Except.ok 0 :=
  ⟨by decide, by decide,
   fresh_bank_vote_zero 3 4 100 [true, false, true] (by decide) (by decide)⟩

/-- Modelled from the spec: the "uniform shuffle of an index sequence"
capability (rand `SliceRandom::shuffle`, an external crate not part of
this repository): repeatedly draw one uniform value, move the selected
element to the front, recurse on the rest; deterministic given the
stream. -/
def Rng.shuffleGo : ℕ → List ℕ → Rng → List ℕ × Rng
  | 0, xs, rng => (xs, rng)
  | fuel + 1, xs, rng =>
    match xs with
    | [] => ([], rng)
    | _ :: _ =>
      let d := rng.next
      let j := min (Int.toNat ⌊d.1 * (xs.length : ℚ)⌋) (xs.length - 1)
      let rest := xs.take j ++ xs.drop (j + 1)
      let res := Rng.shuffleGo fuel rest d.2
      (xs.getD j 0 :: res.1, res.2)

/-- Modelled from the spec: shuffle an index sequence. -/
def Rng.shuffle (rng : Rng) (xs : List ℕ) : List ℕ × Rng :=
  Rng.shuffleGo xs.length xs rng

/-- A rectangular boolean feature matrix (ndarray `Array2<bool>`): the row
list plus the column count; `Array2` is rectangular by construction, which
the `rect` field records. -/
structure BoolMatrix where
  ncols : ℕ
  rows : List (List Bool)
  rect : ∀ r ∈ rows, r.length = ncols

/-- TsetlinMachine struct from src/machine.rs. -/
structure TsetlinMachine where
  clause_bank : ClauseBank
  num_features : ℕ
  num_clauses : ℕ
  specificity : ℚ
  threshold : ℚ
  rng : Rng

/-- Rust `TsetlinMachine::new`: `assert!(num_clauses % 2 == 0)` (note 0 is even
and passes), then an all-fresh bank with automaton depth hard-coded to
100; `StdRng::from_entropy()` is an external input, modelled as the
`entropy` parameter. -/
def TsetlinMachine.new (num_features num_clauses : ℕ) (specificity threshold : ℚ)
    (entropy : Rng) : Except Panic TsetlinMachine :=
  if num_clauses % 2 = 0 then
    Except.ok { clause_bank := ClauseBank.new num_features num_clauses 100,
                num_features := num_features, num_clauses := num_clauses,
                specificity := specificity, threshold := threshold, rng := entropy }
  else Except.error Panic.oddClauses

/-- Rust `TsetlinMachine::with_defaults`: `new` with specificity 2.0 and
threshold 1.0. -/
def TsetlinMachine.with_defaults (num_features num_clauses : ℕ) (entropy : Rng) :
    Except Panic TsetlinMachine :=
  TsetlinMachine.new num_features num_clauses 2 1 entropy

/-- Inner loop of `TsetlinMachine::fit`: one `ClauseBank::update` per
sample index, in the given (shuffled) order. The indices are always in
bounds (they come from `0..num_samples`), so `getD` defaults are never
used. -/
def TsetlinMachine.fitSamples (features : BoolMatrix) (labels : List Bool)
    (threshold specificity : ℚ) :
    List ℕ → ClauseBank → Rng → Except Panic (ClauseBank × Rng)
  | [], bank, rng => Except.ok (bank, rng)
  | idx :: rest, bank, rng =>
    match bank.update (features.rows.getD idx []) (labels.getD idx false)
        threshold specificity rng with
    | Except.error e => Except.error e
    | Except.ok (bank2, rng2) =>
      TsetlinMachine.fitSamples features labels threshold specificity rest bank2 rng2

/-- Epoch loop of `TsetlinMachine::fit`: shuffle the index list (in place,
so the next epoch shuffles the order this epoch produced), then train
sample. -/
def TsetlinMachine.fitEpochs (features : BoolMatrix) (labels : List Bool)
    (threshold specificity : ℚ) :
    ℕ → List ℕ → ClauseBank → Rng → Except Panic (ClauseBank × Rng)
  | 0, _, bank, rng => Except.ok (bank, rng)
  | e + 1, indices, bank, rng =>
    let sh := rng.shuffle indices
    match TsetlinMachine.fitSamples features labels threshold specificity sh.1 bank sh.2 with
    | Except.error e2 => Except.error e2
    | Except.ok (bank2, rng2) =>
      TsetlinMachine.fitEpochs features labels threshold specificity e sh.1 bank2 rng2

/-- Rust `TsetlinMachine::fit`: `assert_eq!(features.nrows(), labels.len())`,
then `assert_eq!(features.ncols(), self.num_features)` — both before any
update is applied — then the epoch loop. -/
def TsetlinMachine.fit (m : TsetlinMachine) (features : BoolMatrix) (labels : List Bool)
    (epochs : ℕ) : Except Panic TsetlinMachine :=
  if features.rows.length = labels.length then
    if features.ncols = m.num_features then
      match TsetlinMachine.fitEpochs features labels m.threshold m.specificity epochs
          (List.range features.rows.length) m.clause_bank m.rng with
      | Except.error e => Except.error e
      | Except.ok (bank2, rng2) =>
        Except.ok { m with clause_bank := bank2, rng := rng2 }
    else Except.error Panic.shapeMismatch
  else Except.error Panic.shapeMismatch

/-- Row loop of `TsetlinMachine::predict`. -/
def TsetlinMachine.predictGo (bank : ClauseBank) : List (List Bool) → Except Panic (List Bool)
  | [] => Except.ok []
  | row :: rest =>
    match bank.vote row with
    | Except.error e => Except.error e
    | Except.ok v =>
      match TsetlinMachine.predictGo bank rest with
      | Except.error e => Except.error e
      | Except.ok ps => Except.ok (decide (0 < v) :: ps)

/-- Rust `TsetlinMachine::predict`: `assert_eq!(features.ncols(), self.num_features)`,
then per row independently `vote(row) > 0`. -/
def TsetlinMachine.predict (m : TsetlinMachine) (features : BoolMatrix) :
    Except Panic (List Bool) :=
  if features.ncols = m.num_features then
    TsetlinMachine.predictGo m.clause_bank features.rows
  else Except.error Panic.shapeMismatch

/-- Rust `TsetlinMachine::predict_single`: `assert_eq!(features.len(), self.num_features)`,
then `vote > 0`. -/
def TsetlinMachine.predict_single (m : TsetlinMachine) (features : List Bool) :
    Except Panic Bool :=
  if features.length = m.num_features then
    match m.clause_bank.vote features with
    | Except.error e => Except.error e
    | Except.ok v => Except.ok (decide (0 < v))
  else Except.error Panic.shapeMismatch

/-- Rust `TsetlinMachine::evaluate`: `predict`, zip the predictions with the
labels (Rust `zip` silently truncates to the shorter sequence; there is no
row-count assert here), count matches, and compute
`correct as f64 / labels.len() as f64` unconditionally. With empty labels
this is `0.0 / 0.0`, the IEEE NaN, modelled as `none`; with nonempty
labels the quotient of two small integers, modelled as the exact rational. -/
def TsetlinMachine.evaluate (m : TsetlinMachine) (features : BoolMatrix)
    (labels : List Bool) : Except Panic (Option ℚ) :=
  match m.predict features with
  | Except.error e => Except.error e
  | Except.ok predictions =>
    let correct := ((predictions.zip labels).filter (fun pr => pr.1 == pr.2)).length
    if labels.length = 0 then Except.ok none
    else Except.ok (some ((correct : ℚ) / (labels.length : ℚ)))

/-- A sequence of `fit` calls (each one dataset, labels, epoch count), for
the determinism claim. -/
def TsetlinMachine.fitMany (m : TsetlinMachine) :
    List (BoolMatrix × List Bool × ℕ) → Except Panic TsetlinMachine
  | [] => Except.ok m
  | (f, ls, ep) :: rest =>
    match m.fit f ls ep with
    | Except.error e => Except.error e
    | Except.ok m2 => m2.fitMany rest

/-- A concrete deterministic stream used by the concrete witnesses. -/
def zeroRng : Rng := { stream := fun _ => 0, pos := 0 }

/-- The 0-row, 2-column feature matrix. -/
def emptyMatrix2 : BoolMatrix :=
  { ncols := 2, rows := [], rect := by intro r hr; exact absurd hr (List.not_mem_nil r) }

/-- The 1-row, 1-column feature matrix `[[true]]`. -/
def oneRowMatrix1 : BoolMatrix :=
  { ncols := 1, rows := [[true]], rect := by decide }

/-- C3 counterexample: `evaluate` called with an empty label sequence
returns `Ok none` — the model marker for the silently produced IEEE NaN of
`0.0 / 0.0` — and not an error: the division by `labels.len()` is not
guarded. -/
theorem evaluate_empty_labels_returns_nan :
    (TsetlinMachine.with_defaults 2 2 zeroRng >>= fun m =>
      m.evaluate emptyMatrix2 []) = Except.ok none := by
  rfl

/-- C3 amended: the division in `evaluate` is unguarded — whenever
`predict` succeeds, `evaluate` on an empty label sequence silently
returns the NaN of `0.0 / 0.0` (modelled `Ok none`); no explicit error is
reported. -/
theorem evaluate_empty_labels_unguarded (m : TsetlinMachine) (features : BoolMatrix)
    (preds : List Bool) (hp : m.predict features = Except.ok preds) :
    m.evaluate features [] = Except.ok none := by
  simp [TsetlinMachine.evaluate, hp]

/-- The machine `with_defaults(2, 2)` constructs (with the zero stream as
its entropy). -/
def machineTwoFeatures : TsetlinMachine :=
  { clause_bank := ClauseBank.new 2 2 100, num_features := 2, num_clauses := 2,
    specificity := 2, threshold := 1, rng := zeroRng }

/-- The machine `with_defaults(1, 2)` constructs (with the zero stream as
its entropy). -/
def machineOneFeature : TsetlinMachine :=
  { clause_bank := ClauseBank.new 1 2 100, num_features := 1, num_clauses := 2,
    specificity := 2, threshold := 1, rng := zeroRng }

/-- Witness for the amended C3 on a freshly constructed machine and the
empty matrix. -/
theorem evaluate_empty_labels_unguarded_witness :
    machineTwoFeatures.predict emptyMatrix2 = Except.ok [] ∧
    machineTwoFeatures.evaluate emptyMatrix2 [] = Except.ok none :=
  ⟨rfl, evaluate_empty_labels_unguarded _ emptyMatrix2 [] rfl⟩

/-- C4 counterexample: construction with `num_clauses = 0` succeeds — the
only construction check is `assert!(num_clauses % 2 == 0)`, 0 is even, and
no automaton-depth validation exists anywhere (the depth is hard-coded to
100) — contradicting "construction with num_clauses = 0 fails". -/
theorem machine_new_zero_clauses_succeeds :
    ∃ m, TsetlinMachine.new 5 0 2 1 zeroRng = Except.ok m :=
  ⟨_, rfl⟩

/-- C4 amended: construction (`new` and `with_defaults`) fails — with the
odd-clauses panic and producing no machine — exactly when `num_clauses` is
odd; `num_clauses = 0` passes the evenness assert and construction
succeeds, and the automaton depth is hard-coded to 100 with no validation
of it. -/
theorem machine_new_fails_iff_odd (nf nc : ℕ) (s t : ℚ) (entropy : Rng) :
    (nc % 2 = 0 →
      (∃ m, TsetlinMachine.new nf nc s t entropy = Except.ok m) ∧
      (∃ m, TsetlinMachine.with_defaults nf nc entropy = Except.ok m)) ∧
    (nc % 2 = 1 →
      TsetlinMachine.new nf nc s t entropy = Except.error Panic.oddClauses ∧
      TsetlinMachine.with_defaults nf nc entropy = Except.error Panic.oddClauses) := by
  constructor
  · intro h
    constructor
    · simp only [TsetlinMachine.new, if_pos h]
      exact ⟨_, rfl⟩
    · simp only [TsetlinMachine.with_defaults, TsetlinMachine.new, if_pos h]
      exact ⟨_, rfl⟩
  · intro h
    have h2 : ¬ (nc % 2 = 0) := by omega
    constructor
    · simp only [TsetlinMachine.new, if_neg h2]
    · simp only [TsetlinMachine.with_defaults, TsetlinMachine.new, if_neg h2]

/-- Witness for the amended C4: `num_clauses = 0` constructs, 9 does not. -/
theorem machine_new_fails_iff_odd_witness :
    (∃ m, TsetlinMachine.new 5 0 2 1 zeroRng = Except.ok m) ∧
    TsetlinMachine.with_defaults 5 9 zeroRng = Except.error Panic.oddClauses :=
  ⟨((machine_new_fails_iff_odd 5 0 2 1 zeroRng).1 (by decide)).1,
   ((machine_new_fails_iff_odd 5 9 2 1 zeroRng).2 (by decide)).2⟩

/-- C6 counterexample: `evaluate` with a feature/label row-count mismatch
(1 feature row, 2 labels) does not fail with a shape-mismatch error: the
prediction/label zip silently truncates and a numeric result `Ok (some q)`
is returned. -/
theorem evaluate_row_mismatch_no_error :
    ∃ q : ℚ, (TsetlinMachine.with_defaults 1 2 zeroRng >>= fun m =>
      m.evaluate oneRowMatrix1 [true, false]) = Except.ok (some q) :=
  ⟨_, rfl⟩

/-- C6 amended: `fit` validates the feature/label row count and the column
count before applying any update and fails with a shape-mismatch panic on
either violation (row-count mismatch or column-count mismatch), producing
no mutated machine; `predict` (and through it `evaluate`) validates only
the column count — `evaluate` never checks the row count, silently
truncating the prediction/label zip, and returns a numeric result whenever
`predict` succeeds. -/
theorem fit_shape_mismatch_fails_before_update (m : TsetlinMachine)
    (features : BoolMatrix) (labels : List Bool) (epochs : ℕ)
    (hmis : features.rows.length ≠ labels.length ∨ features.ncols ≠ m.num_features) :
    m.fit features labels epochs = Except.error Panic.shapeMismatch ∧
    (∀ preds, m.predict features = Except.ok preds →
      ∃ r, m.evaluate features labels = Except.ok r) := by
  constructor
  · unfold TsetlinMachine.fit
    rcases hmis with h | h
    · rw [if_neg h]
    · by_cases h2 : features.rows.length = labels.length
      · rw [if_pos h2, if_neg h]
      · rw [if_neg h2]
  · intro preds hp
    simp only [TsetlinMachine.evaluate, hp]
    by_cases hl : labels.length = 0
    · rw [if_pos hl]
      exact ⟨none, rfl⟩
    · rw [if_neg hl]
      exact ⟨_, rfl⟩

/-- Witness for the amended C6, exercising both violations: the one-feature
machine on 1 feature row against 2 labels (row-count mismatch, where
`evaluate` still returns a numeric result), and the two-feature machine on
the 1-column matrix with a matching label count (column-count mismatch). -/
theorem fit_shape_mismatch_fails_before_update_witness :
    (machineOneFeature.fit oneRowMatrix1 [true, false] 3 =
      Except.error Panic.shapeMismatch ∧
     ∃ r, machineOneFeature.evaluate oneRowMatrix1 [true, false] = Except.ok r) ∧
    machineTwoFeatures.fit oneRowMatrix1 [true] 3 =
      Except.error Panic.shapeMismatch :=
  ⟨⟨(fit_shape_mismatch_fails_before_update machineOneFeature oneRowMatrix1
        [true, false] 3 (Or.inl (by decide))).1,
    (fit_shape_mismatch_fails_before_update machineOneFeature oneRowMatrix1
        [true, false] 3 (Or.inl (by decide))).2 [false] rfl⟩,
   (fit_shape_mismatch_fails_before_update machineTwoFeatures oneRowMatrix1
        [true] 3 (Or.inr (by decide))).1⟩

theorem predictGo_eq_mapM (m : TsetlinMachine) :
    ∀ rows : List (List Bool), (∀ r ∈ rows, r.length = m.num_features) →
      TsetlinMachine.predictGo m.clause_bank rows =
        rows.mapM (fun r => m.predict_single r) := by
  intro rows
  induction rows with
  | nil =>
    intro _
    rfl
  | cons r rest ih =>
    intro hall
    have hr : r.length = m.num_features := hall r (List.mem_cons_self _ _)
    rw [List.mapM_cons, ← ih (fun x hx => hall x (List.mem_cons_of_mem _ hx))]
    have hps : m.predict_single r =
        match m.clause_bank.vote r with
        | Except.error e => Except.error e
        | Except.ok v => Except.ok (decide (0 < v)) := by
      unfold TsetlinMachine.predict_single
      rw [if_pos hr]
    rw [show TsetlinMachine.predictGo m.clause_bank (r :: rest) =
        match m.clause_bank.vote r with
        | Except.error e => Except.error e
        | Except.ok v =>
          match TsetlinMachine.predictGo m.clause_bank rest with
          | Except.error e => Except.error e
          | Except.ok ps => Except.ok (decide (0 < v) :: ps) from rfl, hps]
    cases hv : m.clause_bank.vote r with
    | error e => rfl
    | ok v =>
      cases hg : TsetlinMachine.predictGo m.clause_bank rest with
      | error e => rfl
      | ok ps => rfl

/-- C7: for a row of length `num_features` whose vote is defined,
`predict_single` returns exactly `vote > 0`; a tie (`vote_sum = 0`)
predicts false with no separate tie-breaking rule; and `predict` applies
the very same single-row rule to each row independently (it equals mapping
`predict_single` over the rows, each row having the matching length by
rectangularity). -/
theorem predict_votes_positive (m : TsetlinMachine) (row : List Bool) (v : ℤ)
    (features : BoolMatrix)
    (hrow : row.length = m.num_features)
    (hv : m.clause_bank.vote row = Except.ok v)
    (hcols : features.ncols = m.num_features) :
    m.predict_single row = Except.ok (decide (0 < v)) ∧
    (v = 0 → m.predict_single row = Except.ok false) ∧
    m.predict features = features.rows.mapM (fun r => m.predict_single r) := by
  have h1 : m.predict_single row = Except.ok (decide (0 < v)) := by
    simp [TsetlinMachine.predict_single, hrow, hv]
  refine ⟨h1, ?_, ?_⟩
  · intro h0
    subst h0
    simpa using h1
  · unfold TsetlinMachine.predict
    rw [if_pos hcols]
    have hrect : ∀ r ∈ features.rows, r.length = m.num_features := by
      intro r hr
      rw [features.rect r hr, hcols]
    exact predictGo_eq_mapM m features.rows hrect

/-- Witness for C7: the fresh one-feature machine votes 0 on `[true]`, so
it predicts false (the tie policy), and `predict` agrees with
`predict_single` row-wise. -/
theorem predict_votes_positive_witness :
    machineOneFeature.predict_single [true] = Except.ok false ∧
    machineOneFeature.predict oneRowMatrix1 =
      oneRowMatrix1.rows.mapM (fun r => machineOneFeature.predict_single r) :=
  ⟨(predict_votes_positive machineOneFeature [true] 0 oneRowMatrix1 rfl rfl rfl).2.1 rfl,
   (predict_votes_positive machineOneFeature [true] 0 oneRowMatrix1 rfl rfl rfl).2.2⟩

/-- C8: training is deterministic given the stochastic source — two
machines constructed with the same configuration and the same entropy
state are equal and produce identical results (identical automaton states
in particular) after any identical sequence of `fit` calls; in this
embedding the stochastic source is an explicit seedable input and `fit` is
a pure function of machine state and data, so no other source of
nondeterminism exists. -/
theorem machines_same_seed_deterministic (nf nc : ℕ) (s t : ℚ) (entropy : Rng)
    (m1 m2 : TsetlinMachine) (calls : List (BoolMatrix × List Bool × ℕ))
    (h1 : TsetlinMachine.new nf nc s t entropy = Except.ok m1)
    (h2 : TsetlinMachine.new nf nc s t entropy = Except.ok m2) :
    m1.fitMany calls = m2.fitMany calls := by
  rw [h1] at h2
  have hm : m1 = m2 := by injection h2
  rw [hm]

/-- Witness for C8: two identical constructions of the one-feature machine
fitted once on the one-row dataset. -/
theorem machines_same_seed_deterministic_witness :
    machineOneFeature.fitMany [(oneRowMatrix1, [true], 1)] =
      machineOneFeature.fitMany [(oneRowMatrix1, [true], 1)] :=
  machines_same_seed_deterministic 1 2 2 1 zeroRng machineOneFeature machineOneFeature
    [(oneRowMatrix1, [true], 1)] rfl rfl

end Tsetlin
